import Mathlib

/-!
Verification of the task scheduling and persistence engine of
vscode-copilot-scheduler (src/scheduleManager.ts), shallowly embedded.

Instants are milliseconds since the Unix epoch (`Nat`); the code's
`Date` values are embedded this way. Truncation of a `Date` to minute
granularity (src/scheduleManager.ts:428 and 447) is embedded as
flooring the millisecond count to a multiple of 60000; the code
truncates via local-time calendar components, which agrees with this
because timezone offsets are whole minutes.
-/

/-- Truncate an instant to minute granularity
(`new Date(getFullYear(), ..., getMinutes())` in the source). -/
def truncMinute (t : Nat) : Nat := t / 60000 * 60000

/-- Task scope (src/types.ts `TaskScope`). -/
inductive TaskScope where
  | globalScope
  | workspace
deriving DecidableEq, Repr

/-- Prompt source (src/types.ts `PromptSource`). -/
inductive PromptSource where
  | inline
  | localFile
  | globalTemplate
deriving DecidableEq, Repr

/-- Modelled from the spec: the 5-field cron grammar of the external
`cron-parser` dependency (the library's code is not in the repository).
A parsed expression keeps, per field, the list of accepted values
(§4.1: "the underlying 5-field cron grammar"). -/
structure CronExpr where
  minute : List Nat
  hour : List Nat
  dom : List Nat
  month : List Nat
  dow : List Nat
deriving DecidableEq, Repr

/-- Split a character list at the characters satisfying `p` (separators
are consumed; empty pieces are kept). -/
def splitWhen (p : Char → Bool) : List Char → List (List Char)
  | [] => [[]]
  | c :: cs =>
    let r := splitWhen p cs
    if p c then [] :: r
    else
      match r with
      | [] => [[c]]
      | h :: t => (c :: h) :: t

/-- A nonempty all-digit token as a number. -/
def digitsToNat? (l : List Char) : Option Nat :=
  if l = [] then none
  else if l.all Char.isDigit then
    some (l.foldl (fun acc c => acc * 10 + (c.toNat - 48)) 0)
  else none

/-- Accepted values of the range `[a, b]` stepping by `step`. -/
def rangeVals (a b step : Nat) : List Nat :=
  (List.range' a (b + 1 - a)).filter (fun v => (v - a) % step = 0)

/-- Modelled from the spec: one range atom of a cron field, either `*`,
a single value, or `a-b`, bounded by the field's `lo..hi`. -/
def parseRangePart (lo hi : Nat) (s : List Char) : Option (Nat × Nat) :=
  if s = ['*'] then some (lo, hi)
  else
    match splitWhen (fun c => c = '-') s with
    | [a] =>
      match digitsToNat? a with
      | some v => if lo ≤ v ∧ v ≤ hi then some (v, v) else none
      | none => none
    | [a, b] =>
      match digitsToNat? a, digitsToNat? b with
      | some va, some vb =>
        if lo ≤ va ∧ va ≤ vb ∧ vb ≤ hi then some (va, vb) else none
      | _, _ => none
    | _ => none

/-- Modelled from the spec: a cron field atom with an optional `/step`. -/
def parseAtom (lo hi : Nat) (s : List Char) : Option (List Nat) :=
  match splitWhen (fun c => c = '/') s with
  | [body] => (parseRangePart lo hi body).map (fun p => rangeVals p.1 p.2 1)
  | [body, stepStr] =>
    match digitsToNat? stepStr, parseRangePart lo hi body with
    | some step, some p => if step = 0 then none else some (rangeVals p.1 p.2 step)
    | _, _ => none
  | _ => none

/-- Modelled from the spec: a full cron field, a comma list of atoms. -/
def parseCronField (lo hi : Nat) (s : List Char) : Option (List Nat) :=
  let atoms := (splitWhen (fun c => c = ',') s).map (parseAtom lo hi)
  if atoms.all Option.isSome then some ((atoms.map (fun o => o.getD [])).flatten)
  else none

/-- Modelled from the spec: parsing a 5-field cron expression
(minute, hour, day of month, month, day of week); any other field
count or an unparseable token fails (§4.1). Day-of-week 7 is
normalized to 0. -/
def parseCron (s : String) : Option CronExpr :=
  match (splitWhen Char.isWhitespace s.data).filter (fun f => f ≠ []) with
  | [mi, hr, dm, mo, dw] =>
    match parseCronField 0 59 mi, parseCronField 0 23 hr, parseCronField 1 31 dm,
        parseCronField 1 12 mo, parseCronField 0 7 dw with
    | some l1, some l2, some l3, some l4, some l5 =>
      some ⟨l1, l2, l3, l4, l5.map (fun v => v % 7)⟩
    | _, _, _, _, _ => none
  | _ => none

/-- Civil date (year, month, day) of a day count since 1970-01-01
(proleptic Gregorian calendar). -/
def civilFromDays (z : Nat) : Nat × Nat × Nat :=
  let z' := z + 719468
  let era := z' / 146097
  let doe := z' % 146097
  let yoe := (doe - doe / 1460 + doe / 36524 - doe / 146096) / 365
  let y := yoe + era * 400
  let doy := doe - (365 * yoe + yoe / 4 - yoe / 100)
  let mp := (5 * doy + 2) / 153
  let d := doy - (153 * mp + 2) / 5 + 1
  let m := if mp < 10 then mp + 3 else mp - 9
  (if m ≤ 2 then y + 1 else y, m, d)

/-- Minute index shifted into the evaluation timezone (offset in minutes). -/
def localMinuteOf (off : Int) (m : Nat) : Nat := (Int.ofNat m + off).toNat

/-- Modelled from the spec: whether the minute with index `m`
(minutes since the epoch) satisfies the cron expression, evaluated at
timezone offset `off` (§4.1 "evaluated in timezone if supplied"). -/
def CronExpr.matchesAt (e : CronExpr) (off : Int) (m : Nat) : Bool :=
  let lm := localMinuteOf off m
  let z := lm / 1440
  let c := civilFromDays z
  e.minute.contains (lm % 60) && e.hour.contains (lm / 60 % 24) &&
    e.dom.contains c.2.2 && e.month.contains c.2.1 &&
    e.dow.contains ((z + 4) % 7)

/-- Bounded forward search for the first matching minute index at or
after `m` (the library iterates with its own end conditions; the bound
covers several years, past which evaluation soft-fails). -/
def findMatchFrom (e : CronExpr) (off : Int) : Nat → Nat → Option Nat
  | 0, _ => none
  | fuel + 1, m => if e.matchesAt off m then some m else findMatchFrom e off fuel (m + 1)

def searchFuel : Nat := 2200000

/-- Modelled from the spec: `nextOccurrence(expression, from, timezone?)`,
the earliest instant strictly after `fromMs` satisfying `e` (§4.1).
Occurrences are minute-aligned, so the search starts at the minute
index after `fromMs`. -/
def nextOccurrenceMs (e : CronExpr) (off : Int) (fromMs : Nat) : Option Nat :=
  (findMatchFrom e off searchFuel (fromMs / 60000 + 1)).map (fun m => m * 60000)

/-- Ambient host/configuration state the manager reads
(vscode.workspace configuration and workspace folders). -/
structure Env where
  tzOffsetMin : Int
  defaultScope : TaskScope
  schedulingEnabled : Bool
  currentWorkspace : Option String
deriving DecidableEq, Repr

/-- src/types.ts `ScheduledTask`, with `Date` fields as epoch milliseconds. -/
structure ScheduledTask where
  id : String
  name : String
  cronExpression : String
  prompt : String
  enabled : Bool
  agent : Option String
  model : Option String
  scope : TaskScope
  workspacePath : Option String
  promptSource : PromptSource
  promptPath : Option String
  lastRun : Option Nat
  nextRun : Option Nat
  createdAt : Nat
  updatedAt : Nat
deriving DecidableEq, Repr

/-- src/types.ts `CreateTaskInput` (optional fields as `Option`). -/
structure CreateTaskInput where
  name : String
  cronExpression : String
  prompt : String
  enabled : Option Bool := none
  agent : Option String := none
  model : Option String := none
  scope : Option TaskScope := none
  runFirstInOneMinute : Option Bool := none
  promptSource : Option PromptSource := none
  promptPath : Option String := none
deriving DecidableEq, Repr

/-- `Partial<CreateTaskInput>` as `updateTask` receives it. -/
structure UpdateTaskInput where
  name : Option String := none
  cronExpression : Option String := none
  prompt : Option String := none
  enabled : Option Bool := none
  agent : Option String := none
  model : Option String := none
  scope : Option TaskScope := none
  runFirstInOneMinute : Option Bool := none
  promptSource : Option PromptSource := none
  promptPath : Option String := none
deriving DecidableEq, Repr

/-- The error thrown for a bad cron expression
(`new Error(messages.invalidCronExpression())`). -/
inductive SchedError where
  | invalidExpression
deriving DecidableEq, Repr

/-- The manager's mutable state: the task map (a JS `Map` in insertion
order), the snapshots handed to `globalState.update` (latest first),
and how many times the tasks-changed callback fired. -/
structure ManagerState where
  tasks : List ScheduledTask
  saved : List (List ScheduledTask)
  notifications : Nat
deriving DecidableEq, Repr

/-- `saveTasks` (src/scheduleManager.ts:93-97): persist the entire
collection, then notify. -/
def saveTasks (st : ManagerState) : ManagerState :=
  { st with saved := st.tasks :: st.saved, notifications := st.notifications + 1 }

/-- `Map.set` on the task map: replace the entry with the same id,
else append. -/
def setTask (tasks : List ScheduledTask) (t : ScheduledTask) : List ScheduledTask :=
  if tasks.any (fun u => u.id == t.id) then
    tasks.map (fun u => if u.id == t.id then t else u)
  else tasks ++ [t]

/-- `getNextRun` (src/scheduleManager.ts:120-142): next occurrence after
`baseTime`, `none` when parsing fails (soft-fail). -/
def getNextRun (env : Env) (cronExpression : String) (baseTime : Nat) : Option Nat :=
  match parseCron cronExpression with
  | none => none
  | some e => nextOccurrenceMs e env.tzOffsetMin baseTime

/-- `validateCronExpression` (src/scheduleManager.ts:148-171): throws for
an empty/whitespace-only string and for anything the grammar rejects. -/
def validateCronExpression (expression : String) : Except SchedError Bool :=
  if expression.data.all Char.isWhitespace then Except.error SchedError.invalidExpression
  else
    match parseCron expression with
    | some _ => Except.ok true
    | none => Except.error SchedError.invalidExpression

/-- `createTask` (src/scheduleManager.ts:176-220). The generated id and
"now" are passed in explicitly (`generateId` draws on the wall clock and
a random suffix). Validation happens before any mutation, so a thrown
`InvalidExpression` returns the state unchanged. Note the source sets
`workspacePath` from `input.scope === "workspace"`, not from the
resolved scope. -/
def createTask (env : Env) (st : ManagerState) (input : CreateTaskInput)
    (now : Nat) (newId : String) : Except SchedError ScheduledTask × ManagerState :=
  match validateCronExpression input.cronExpression with
  | Except.error e => (Except.error e, st)
  | Except.ok _ =>
    let nextRun :=
      if input.runFirstInOneMinute = some true then some (now + 60 * 1000)
      else getNextRun env input.cronExpression now
    let task : ScheduledTask := {
      id := newId
      name := input.name
      cronExpression := input.cronExpression
      prompt := input.prompt
      enabled := input.enabled ≠ some false
      agent := input.agent
      model := input.model
      scope := input.scope.getD env.defaultScope
      workspacePath :=
        if input.scope = some TaskScope.workspace then env.currentWorkspace else none
      promptSource := input.promptSource.getD PromptSource.inline
      promptPath := input.promptPath
      lastRun := none
      nextRun := nextRun
      createdAt := now
      updatedAt := now }
    (Except.ok task, saveTasks { st with tasks := setTask st.tasks task })

/-- The field-by-field application part of `updateTask`
(src/scheduleManager.ts:262-297): each `!== undefined` check applies
the present fields in source order, then bumps `updatedAt`. -/
def applyUpdates (env : Env) (task : ScheduledTask) (u : UpdateTaskInput)
    (now : Nat) : ScheduledTask :=
  let task := match u.name with
    | some n => { task with name := n }
    | none => task
  let task := match u.cronExpression with
    | some c => { task with cronExpression := c, nextRun := getNextRun env c now }
    | none => task
  let task := match u.prompt with
    | some p => { task with prompt := p }
    | none => task
  let task := match u.enabled with
    | some b => { task with enabled := b }
    | none => task
  let task := match u.agent with
    | some a => { task with agent := some a }
    | none => task
  let task := match u.model with
    | some m => { task with model := some m }
    | none => task
  let task := match u.scope with
    | some sc =>
      { task with
          scope := sc
          workspacePath := if sc = TaskScope.workspace then env.currentWorkspace else none }
    | none => task
  let task := match u.promptSource with
    | some ps => { task with promptSource := ps }
    | none => task
  let task := match u.promptPath with
    | some pp => { task with promptPath := some pp }
    | none => task
  { task with updatedAt := now }

/-- The guard `if (updates.cronExpression)` (src/scheduleManager.ts:256)
is a JavaScript truthiness test: it is true only for a present,
nonempty string. -/
def cronExpressionTruthy (u : UpdateTaskInput) : Bool :=
  match u.cronExpression with
  | some s => s ≠ ""
  | none => false

/-- `updateTask` (src/scheduleManager.ts:246-302): `none` for an unknown
id; validates `cronExpression` only when it is truthy; applies the
present fields; persists and notifies. -/
def updateTask (env : Env) (st : ManagerState) (id : String)
    (u : UpdateTaskInput) (now : Nat) :
    Except SchedError (Option ScheduledTask) × ManagerState :=
  match st.tasks.find? (fun t => t.id == id) with
  | none => (Except.ok none, st)
  | some task =>
    if cronExpressionTruthy u then
      match validateCronExpression (u.cronExpression.getD "") with
      | Except.error e => (Except.error e, st)
      | Except.ok _ =>
        let t := applyUpdates env task u now
        (Except.ok (some t), saveTasks { st with tasks := setTask st.tasks t })
    else
      let t := applyUpdates env task u now
      (Except.ok (some t), saveTasks { st with tasks := setTask st.tasks t })

/-- `toggleTask` (src/scheduleManager.ts:318-335): flips `enabled`,
bumps `updatedAt`, and recomputes `nextRun` only when the task becomes
enabled. -/
def toggleTask (env : Env) (st : ManagerState) (id : String) (now : Nat) :
    Option ScheduledTask × ManagerState :=
  match st.tasks.find? (fun t => t.id == id) with
  | none => (none, st)
  | some task =>
    let task := { task with enabled := !task.enabled, updatedAt := now }
    let task :=
      if task.enabled then
        { task with nextRun := getNextRun env task.cronExpression now }
      else task
    (some task, saveTasks { st with tasks := setTask st.tasks task })

/-- `duplicateTask` (src/scheduleManager.ts:340-359): builds a
`CreateTaskInput` from the source task (name suffixed, forced
disabled) and delegates to `createTask`. -/
def duplicateTask (env : Env) (st : ManagerState) (id : String)
    (now : Nat) (newId : String) :
    Except SchedError (Option ScheduledTask) × ManagerState :=
  match st.tasks.find? (fun t => t.id == id) with
  | none => (Except.ok none, st)
  | some original =>
    let input : CreateTaskInput := {
      name := original.name ++ " (Copy)"
      cronExpression := original.cronExpression
      prompt := original.prompt
      enabled := some false
      agent := original.agent
      model := original.model
      scope := some original.scope
      promptSource := some original.promptSource
      promptPath := original.promptPath }
    match createTask env st input now newId with
    | (Except.error e, st') => (Except.error e, st')
    | (Except.ok t, st') => (Except.ok (some t), st')

/-- `shouldTaskRunInCurrentWorkspace` (src/scheduleManager.ts:364-377). -/
def shouldTaskRunInCurrentWorkspace (env : Env) (task : ScheduledTask) : Bool :=
  if task.scope = TaskScope.globalScope then true
  else
    match env.currentWorkspace with
    | none => false
    | some cw => task.workspacePath == some cw

/-- The executor callback: `Except.ok` when the promise resolves,
`Except.error` when it rejects/throws. `none` models no registered
callback. -/
abbrev Exec := Option (ScheduledTask → Except String Unit)

/-- The `try { await this.onExecuteCallback(task) } catch (error)
{ console.error(...) }` block (src/scheduleManager.ts:458-464): the
result is (ids the executor was invoked with, errors logged); either
way control continues to the bookkeeping. -/
def runCallback (exec? : Exec) (task : ScheduledTask) : List String × List String :=
  match exec? with
  | none => ([], [])
  | some f =>
    match f task with
    | Except.ok _ => ([task.id], [])
    | Except.error e => ([task.id], [e])

/-- The bookkeeping after a due task fires
(src/scheduleManager.ts:466-468): `lastRun = now`,
`nextRun = getNextRun(cron, now)`. -/
def fireTask (env : Env) (now : Nat) (task : ScheduledTask) : ScheduledTask :=
  { task with lastRun := some now, nextRun := getNextRun env task.cronExpression now }

/-- One iteration of the loop in `checkAndExecuteTasks`
(src/scheduleManager.ts:436-471) for the task with key `id`:
skip when disabled or without `nextRun`, skip when scope-ineligible,
and when due invoke the executor (errors caught), update the task and
persist. -/
def processTask (env : Env) (exec? : Exec) (now nowMinute : Nat)
    (st : ManagerState) (id : String) : ManagerState × List String × List String :=
  match st.tasks.find? (fun t => t.id == id) with
  | none => (st, [], [])
  | some task =>
    if !task.enabled || task.nextRun.isNone then (st, [], [])
    else if !(shouldTaskRunInCurrentWorkspace env task) then (st, [], [])
    else if truncMinute (task.nextRun.getD 0) ≤ nowMinute then
      let ce := runCallback exec? task
      (saveTasks { st with tasks := setTask st.tasks (fireTask env now task) },
        ce.1, ce.2)
    else (st, [], [])

/-- The loop of `checkAndExecuteTasks` over the task keys in map order;
returns (state, executor invocations in order, caught errors). -/
def tickGo (env : Env) (exec? : Exec) (now nowMinute : Nat) :
    List String → ManagerState → ManagerState × List String × List String
  | [], st => (st, [], [])
  | id :: rest, st =>
    let r1 := processTask env exec? now nowMinute st id
    let r2 := tickGo env exec? now nowMinute rest r1.1
    (r2.1, r1.2.1 ++ r2.2.1, r1.2.2 ++ r2.2.2)

/-- `checkAndExecuteTasks` (src/scheduleManager.ts:418-472): a no-op
tick when the feature is disabled in configuration, else processes
every task against "now" truncated to the minute. -/
def checkAndExecuteTasks (env : Env) (exec? : Exec) (now : Nat)
    (st : ManagerState) : ManagerState × List String × List String :=
  if !env.schedulingEnabled then (st, [], [])
  else tickGo env exec? now (truncMinute now) (st.tasks.map (fun t => t.id)) st

/-- `runTaskNow` (src/scheduleManager.ts:477-494): false for a missing
task or executor binding; invokes the executor ignoring
enabled/nextRun/eligibility; on success updates only `lastRun`,
persists and returns true; a thrown executor error is caught, nothing
is updated, and the result is false. -/
def runTaskNow (exec? : Exec) (st : ManagerState) (id : String) (now : Nat) :
    Bool × ManagerState :=
  match st.tasks.find? (fun t => t.id == id) with
  | none => (false, st)
  | some task =>
    match exec? with
    | none => (false, st)
    | some f =>
      match f task with
      | Except.ok _ =>
        (true, saveTasks { st with tasks := setTask st.tasks { task with lastRun := some now } })
      | Except.error _ => (false, st)

/-- The durable-store record shape: the JSON-serializable form of
`ScheduledTask`, timestamps as serialized primitives, with `scope` and
`promptSource` possibly absent (legacy records). -/
structure RawTask where
  id : String
  name : String
  cronExpression : String
  prompt : String
  enabled : Bool
  agent : Option String
  model : Option String
  scope : Option TaskScope
  workspacePath : Option String
  promptSource : Option PromptSource
  promptPath : Option String
  lastRun : Option Nat
  nextRun : Option Nat
  createdAt : Nat
  updatedAt : Nat
deriving DecidableEq, Repr

/-- The record `saveTasks` hands to the durable store for one task. -/
def serializeTask (t : ScheduledTask) : RawTask :=
  { id := t.id, name := t.name, cronExpression := t.cronExpression,
    prompt := t.prompt, enabled := t.enabled, agent := t.agent, model := t.model,
    scope := some t.scope, workspacePath := t.workspacePath,
    promptSource := some t.promptSource, promptPath := t.promptPath,
    lastRun := t.lastRun, nextRun := t.nextRun,
    createdAt := t.createdAt, updatedAt := t.updatedAt }

/-- The per-record part of `loadTasks` (src/scheduleManager.ts:58-88):
timestamps are parsed back, a missing `scope` defaults to `"global"`,
a missing `promptSource` to `"inline"`, and `nextRun` is unconditionally
recomputed from the cron expression at load time `now`. -/
def loadRawTask (env : Env) (now : Nat) (r : RawTask) : ScheduledTask :=
  { id := r.id, name := r.name, cronExpression := r.cronExpression,
    prompt := r.prompt, enabled := r.enabled, agent := r.agent, model := r.model,
    scope := r.scope.getD TaskScope.globalScope,
    workspacePath := r.workspacePath,
    promptSource := r.promptSource.getD PromptSource.inline,
    promptPath := r.promptPath,
    lastRun := r.lastRun,
    nextRun := getNextRun env r.cronExpression now,
    createdAt := r.createdAt, updatedAt := r.updatedAt }

/-- `loadTasks` over the whole persisted list. -/
def loadTasks (env : Env) (now : Nat) (raw : List RawTask) : List ScheduledTask :=
  raw.map (loadRawTask env now)

/-- The scheduler's timer state: `startScheduler`
(src/scheduleManager.ts:382-403) schedules a one-shot alignment
`setTimeout` whose handle is not stored, and the timeout's callback
installs the recurring 60-second `setInterval` kept in
`schedulerInterval`. -/
structure SchedulerTimers where
  pendingAlignment : Bool
  intervalActive : Bool
deriving DecidableEq, Repr

def schedInitState : SchedulerTimers := ⟨false, false⟩

/-- `stopScheduler` (src/scheduleManager.ts:408-413): clears
`schedulerInterval` when set; the pending alignment timeout has no
stored handle and is not cancelled. -/
def stopScheduler (s : SchedulerTimers) : SchedulerTimers :=
  if s.intervalActive then { s with intervalActive := false } else s

/-- `startScheduler` (src/scheduleManager.ts:382-403): stops any
running interval, then schedules the alignment timeout. -/
def startScheduler (s : SchedulerTimers) : SchedulerTimers :=
  let s := stopScheduler s
  { s with pendingAlignment := true }

/-- Host timer events: the alignment timeout firing, or one firing of
the recurring interval. -/
inductive TimerEvent where
  | alignmentFires
  | intervalTick
deriving DecidableEq, Repr

/-- Host timer semantics: an uncancelled `setTimeout` fires exactly
once (running a poll tick and installing the interval); an installed
`setInterval` runs a poll tick each period. The `Bool` reports whether
a poll tick (`checkAndExecuteTasks`) ran on this event. -/
def timerStep : SchedulerTimers → TimerEvent → SchedulerTimers × Bool
  | s, TimerEvent.alignmentFires =>
    if s.pendingAlignment then
      ({ pendingAlignment := false, intervalActive := true }, true)
    else (s, false)
  | s, TimerEvent.intervalTick =>
    if s.intervalActive then (s, true) else (s, false)

/-! Helper lemmas about the cron evaluator. -/

theorem findMatchFrom_ge (e : CronExpr) (off : Int) :
    ∀ (fuel start m : Nat), findMatchFrom e off fuel start = some m → start ≤ m := by
  intro fuel
  induction fuel with
  | zero => intro start m h; simp [findMatchFrom] at h
  | succ n ih =>
    intro start m h
    by_cases hm : e.matchesAt off start
    · simp [findMatchFrom, hm] at h
      omega
    · simp [findMatchFrom, hm] at h
      have := ih (start + 1) m h
      omega

theorem truncMinute_le_self (t : Nat) : truncMinute t ≤ t := by
  unfold truncMinute
  exact Nat.div_mul_le_self t 60000

theorem truncMinute_mul (m : Nat) : truncMinute (m * 60000) = m * 60000 := by
  unfold truncMinute
  rw [Nat.mul_div_cancel m (by norm_num : 0 < 60000)]

/-- A value returned by `nextOccurrenceMs` is minute-aligned and lies
strictly after `fromMs`, even at minute granularity. -/
theorem nextOccurrenceMs_spec (e : CronExpr) (off : Int) (fromMs t : Nat)
    (h : nextOccurrenceMs e off fromMs = some t) :
    truncMinute t = t ∧ fromMs < t ∧ truncMinute fromMs < truncMinute t := by
  unfold nextOccurrenceMs at h
  cases hf : findMatchFrom e off searchFuel (fromMs / 60000 + 1) with
  | none => rw [hf] at h; simp at h
  | some m =>
    rw [hf] at h
    simp at h
    have hge : fromMs / 60000 + 1 ≤ m := findMatchFrom_ge e off _ _ _ hf
    have hmod := Nat.div_add_mod fromMs 60000
    have hlt : fromMs % 60000 < 60000 := Nat.mod_lt _ (by norm_num)
    subst h
    refine ⟨truncMinute_mul m, ?_, ?_⟩
    · have h1 : fromMs < (fromMs / 60000 + 1) * 60000 := by
        have : (fromMs / 60000 + 1) * 60000 = 60000 * (fromMs / 60000) + 60000 := by ring
        omega
      have h2 : (fromMs / 60000 + 1) * 60000 ≤ m * 60000 :=
        Nat.mul_le_mul_right _ hge
      omega
    · rw [truncMinute_mul]
      unfold truncMinute
      have : fromMs / 60000 < m := by omega
      exact (Nat.mul_lt_mul_right (by norm_num : 0 < 60000)).mpr this

/-- What `getNextRun` returns is strictly after `baseTime`, also after
truncation to the minute. -/
theorem getNextRun_spec (env : Env) (cron : String) (base t : Nat)
    (h : getNextRun env cron base = some t) :
    truncMinute t = t ∧ base < t ∧ truncMinute base < truncMinute t := by
  unfold getNextRun at h
  cases hp : parseCron cron with
  | none => rw [hp] at h; exact absurd h (by simp)
  | some e => rw [hp] at h; exact nextOccurrenceMs_spec e env.tzOffsetMin base t h

/-! Helper lemmas about the task map. -/

theorem find?_id_spec {tasks : List ScheduledTask} {i : String} {t : ScheduledTask}
    (h : tasks.find? (fun u => u.id == i) = some t) : t.id = i ∧ t ∈ tasks := by
  have h1 := List.find?_some h
  have h2 := List.mem_of_find?_eq_some h
  simp at h1
  exact ⟨h1, h2⟩

theorem any_id_of_find? {tasks : List ScheduledTask} {i : String} {t : ScheduledTask}
    (h : tasks.find? (fun u => u.id == i) = some t) :
    tasks.any (fun u => u.id == i) = true := by
  have ⟨h1, h2⟩ := find?_id_spec h
  simp [List.any_eq_true]
  exact ⟨t, h2, h1⟩

theorem setTask_map_id (tasks : List ScheduledTask) (t : ScheduledTask)
    (h : tasks.any (fun u => u.id == t.id) = true) :
    (setTask tasks t).map (fun u => u.id) = tasks.map (fun u => u.id) := by
  unfold setTask
  rw [if_pos h, List.map_map]
  apply List.map_congr_left
  intro u _
  by_cases hc : u.id = t.id
  · simp [hc]
  · simp [hc]

theorem find?_append_singleton_ne (t : ScheduledTask) (j : String) (hj : t.id ≠ j) :
    ∀ tasks : List ScheduledTask,
      (tasks ++ [t]).find? (fun u => u.id == j) = tasks.find? (fun u => u.id == j) := by
  intro tasks
  induction tasks with
  | nil =>
    rw [List.nil_append, List.find?_cons_of_neg _ (by simp [hj])]
  | cons v vs ih =>
    by_cases hvj : v.id = j
    · rw [List.cons_append, List.find?_cons_of_pos _ (by simp [hvj]),
        List.find?_cons_of_pos _ (by simp [hvj])]
    · rw [List.cons_append, List.find?_cons_of_neg _ (by simp [hvj]),
        List.find?_cons_of_neg _ (by simp [hvj])]
      exact ih

theorem setTask_find?_ne (tasks : List ScheduledTask) (t : ScheduledTask)
    (j : String) (hj : t.id ≠ j) :
    (setTask tasks t).find? (fun u => u.id == j) = tasks.find? (fun u => u.id == j) := by
  unfold setTask
  by_cases hmem : tasks.any (fun u => u.id == t.id) = true
  · rw [if_pos hmem]
    clear hmem
    induction tasks with
    | nil => rfl
    | cons v vs ih =>
      simp only [List.map_cons]
      by_cases hv : v.id = t.id
      · have hvj : ¬(v.id = j) := by rw [hv]; exact hj
        rw [if_pos (by simp [hv])]
        rw [List.find?_cons_of_neg _ (by simp [hj]), List.find?_cons_of_neg _ (by simp [hvj])]
        exact ih
      · rw [if_neg (by simp [hv])]
        by_cases hvj : v.id = j
        · rw [List.find?_cons_of_pos _ (by simp [hvj]), List.find?_cons_of_pos _ (by simp [hvj])]
        · rw [List.find?_cons_of_neg _ (by simp [hvj]), List.find?_cons_of_neg _ (by simp [hvj])]
          exact ih
  · rw [if_neg hmem]
    exact find?_append_singleton_ne t j hj tasks

theorem setTask_find?_self (tasks : List ScheduledTask) (t : ScheduledTask)
    (h : tasks.any (fun u => u.id == t.id) = true) :
    (setTask tasks t).find? (fun u => u.id == t.id) = some t := by
  unfold setTask
  rw [if_pos h]
  induction tasks with
  | nil => simp at h
  | cons v vs ih =>
    simp only [List.map_cons]
    by_cases hv : v.id = t.id
    · rw [if_pos (by simp [hv])]
      rw [List.find?_cons_of_pos _ (by simp)]
    · rw [if_neg (by simp [hv])]
      rw [List.find?_cons_of_neg _ (by simp [hv])]
      apply ih
      simp at h ⊢
      rcases h with h | h
      · exact absurd h hv
      · exact h

/-- The combined guard of one loop iteration: enabled, armed
(`nextRun` defined), scope-eligible and due at minute granularity. -/
def dueAndEligible (env : Env) (nowMinute : Nat) (task : ScheduledTask) : Bool :=
  task.enabled && task.nextRun.isSome && shouldTaskRunInCurrentWorkspace env task &&
    decide (truncMinute (task.nextRun.getD 0) ≤ nowMinute)

theorem processTask_eq (env : Env) (exec? : Exec) (now nowMinute : Nat)
    (st : ManagerState) (id : String) (task : ScheduledTask)
    (h : st.tasks.find? (fun t => t.id == id) = some task) :
    processTask env exec? now nowMinute st id =
      if dueAndEligible env nowMinute task then
        (saveTasks { st with tasks := setTask st.tasks (fireTask env now task) },
          (runCallback exec? task).1, (runCallback exec? task).2)
      else (st, [], []) := by
  unfold processTask
  rw [h]
  unfold dueAndEligible
  cases he : task.enabled with
  | false => simp [he]
  | true =>
    cases hn : task.nextRun with
    | none => simp [he, hn]
    | some nr =>
      cases hs : shouldTaskRunInCurrentWorkspace env task with
      | false => simp [he, hn, hs]
      | true =>
        by_cases hd : truncMinute nr ≤ nowMinute
        · simp [he, hn, hs, hd]
        · simp [he, hn, hs, hd]

theorem runCallback_calls (exec? : Exec) (task : ScheduledTask) :
    (runCallback exec? task).1 = if exec?.isSome then [task.id] else [] := by
  cases exec? with
  | none => rfl
  | some f =>
    cases hf : f task with
    | ok u => simp [runCallback, hf]
    | error e => simp [runCallback, hf]

theorem processTask_map_id (env : Env) (exec? : Exec) (now nowMinute : Nat)
    (st : ManagerState) (id : String) :
    ((processTask env exec? now nowMinute st id).1).tasks.map (fun t => t.id) =
      st.tasks.map (fun t => t.id) := by
  cases h : st.tasks.find? (fun t => t.id == id) with
  | none => unfold processTask; rw [h]
  | some task =>
    rw [processTask_eq env exec? now nowMinute st id task h]
    by_cases hd : dueAndEligible env nowMinute task
    · rw [if_pos hd]
      simp only [saveTasks]
      have hid : (fireTask env now task).id = task.id := rfl
      have hany : st.tasks.any (fun u => u.id == (fireTask env now task).id) = true := by
        simp only [hid, (find?_id_spec h).1]
        exact any_id_of_find? h
      exact setTask_map_id st.tasks (fireTask env now task) hany
    · rw [if_neg hd]

theorem processTask_find?_ne (env : Env) (exec? : Exec) (now nowMinute : Nat)
    (st : ManagerState) (id j : String) (hij : id ≠ j) :
    ((processTask env exec? now nowMinute st id).1).tasks.find? (fun t => t.id == j) =
      st.tasks.find? (fun t => t.id == j) := by
  cases h : st.tasks.find? (fun t => t.id == id) with
  | none => unfold processTask; rw [h]
  | some task =>
    rw [processTask_eq env exec? now nowMinute st id task h]
    by_cases hd : dueAndEligible env nowMinute task
    · rw [if_pos hd]
      simp only [saveTasks]
      apply setTask_find?_ne
      have hid : (fireTask env now task).id = task.id := rfl
      rw [hid, (find?_id_spec h).1]
      exact hij
    · rw [if_neg hd]

theorem processTask_find?_self (env : Env) (exec? : Exec) (now nowMinute : Nat)
    (st : ManagerState) (id : String) (task : ScheduledTask)
    (h : st.tasks.find? (fun t => t.id == id) = some task) :
    ((processTask env exec? now nowMinute st id).1).tasks.find? (fun t => t.id == id) =
      some (if dueAndEligible env nowMinute task then fireTask env now task else task) := by
  rw [processTask_eq env exec? now nowMinute st id task h]
  by_cases hd : dueAndEligible env nowMinute task
  · rw [if_pos hd, if_pos hd]
    simp only [saveTasks]
    have hid : (fireTask env now task).id = task.id := rfl
    have htid := (find?_id_spec h).1
    have hany : st.tasks.any (fun u => u.id == (fireTask env now task).id) = true := by
      simp only [hid, htid]
      exact any_id_of_find? h
    have hs := setTask_find?_self st.tasks (fireTask env now task) hany
    simpa only [hid, htid] using hs
  · rw [if_neg hd, if_neg hd]
    exact h

theorem processTask_calls_eq (env : Env) (exec? : Exec) (now nowMinute : Nat)
    (st : ManagerState) (id : String) (task : ScheduledTask)
    (h : st.tasks.find? (fun t => t.id == id) = some task) :
    (processTask env exec? now nowMinute st id).2.1 =
      if dueAndEligible env nowMinute task && exec?.isSome then [id] else [] := by
  rw [processTask_eq env exec? now nowMinute st id task h]
  have htid := (find?_id_spec h).1
  by_cases hd : dueAndEligible env nowMinute task
  · rw [if_pos hd]
    show (runCallback exec? task).1 = _
    rw [runCallback_calls]
    cases he : exec?.isSome
    · simp [hd, he]
    · simp [hd, he, htid]
  · simp [hd]

theorem processTask_calls_subset (env : Env) (exec? : Exec) (now nowMinute : Nat)
    (st : ManagerState) (id : String) :
    ∀ j ∈ (processTask env exec? now nowMinute st id).2.1, j = id := by
  intro j hj
  cases h : st.tasks.find? (fun t => t.id == id) with
  | none =>
    unfold processTask at hj
    rw [h] at hj
    simp at hj
  | some task =>
    rw [processTask_calls_eq env exec? now nowMinute st id task h] at hj
    by_cases hd : dueAndEligible env nowMinute task && exec?.isSome
    · rw [if_pos hd] at hj
      simpa using hj
    · rw [if_neg hd] at hj
      simp at hj

/-- How often id `i` occurs in a dispatch list. -/
def countId (l : List String) (i : String) : Nat :=
  (l.filter (fun j => j == i)).length

theorem countId_append (l₁ l₂ : List String) (i : String) :
    countId (l₁ ++ l₂) i = countId l₁ i + countId l₂ i := by
  simp [countId, List.filter_append]

theorem countId_eq_zero (l : List String) (i : String) (h : ∀ j ∈ l, j ≠ i) :
    countId l i = 0 := by
  unfold countId
  rw [List.length_eq_zero]
  rw [List.filter_eq_nil_iff]
  intro j hj
  simp
  exact h j hj

theorem tickGo_map_id (env : Env) (exec? : Exec) (now nowMinute : Nat) :
    ∀ (ids : List String) (st : ManagerState),
      (tickGo env exec? now nowMinute ids st).1.tasks.map (fun t => t.id) =
        st.tasks.map (fun t => t.id) := by
  intro ids
  induction ids with
  | nil => intro st; rfl
  | cons id rest ih =>
    intro st
    simp only [tickGo]
    rw [ih]
    exact processTask_map_id env exec? now nowMinute st id

theorem tickGo_calls_subset (env : Env) (exec? : Exec) (now nowMinute : Nat) :
    ∀ (ids : List String) (st : ManagerState) (j : String),
      j ∈ (tickGo env exec? now nowMinute ids st).2.1 → j ∈ ids := by
  intro ids
  induction ids with
  | nil => intro st j hj; simp [tickGo] at hj
  | cons id rest ih =>
    intro st j hj
    simp only [tickGo] at hj
    rw [List.mem_append] at hj
    cases hj with
    | inl h => rw [processTask_calls_subset env exec? now nowMinute st id j h]; exact List.mem_cons_self id rest
    | inr h => exact List.mem_cons_of_mem id (ih _ j h)

theorem tickGo_find?_of_not_mem (env : Env) (exec? : Exec) (now nowMinute : Nat) :
    ∀ (ids : List String) (st : ManagerState) (i : String),
      (∀ j ∈ ids, j ≠ i) →
      (tickGo env exec? now nowMinute ids st).1.tasks.find? (fun t => t.id == i) =
        st.tasks.find? (fun t => t.id == i) := by
  intro ids
  induction ids with
  | nil => intro st i _; rfl
  | cons id rest ih =>
    intro st i h
    simp only [tickGo]
    rw [ih _ i (fun j hj => h j (List.mem_cons_of_mem id hj))]
    exact processTask_find?_ne env exec? now nowMinute st id i (h id (List.mem_cons_self id rest))

/-- The dispatch count at id `i` and the final stored task at `i`,
after the loop runs over a duplicate-free key list containing `i`. -/
theorem tickGo_spec (env : Env) (exec? : Exec) (now nowMinute : Nat) :
    ∀ (ids : List String) (st : ManagerState) (i : String) (task : ScheduledTask),
      ids.Nodup → i ∈ ids →
      st.tasks.find? (fun t => t.id == i) = some task →
      countId (tickGo env exec? now nowMinute ids st).2.1 i =
        (if dueAndEligible env nowMinute task && exec?.isSome then 1 else 0) ∧
      (tickGo env exec? now nowMinute ids st).1.tasks.find? (fun t => t.id == i) =
        some (if dueAndEligible env nowMinute task then fireTask env now task else task) := by
  intro ids
  induction ids with
  | nil =>
    intro st i task _ hmem
    exact absurd hmem (List.not_mem_nil i)
  | cons id rest ih =>
    intro st i task hnodup hmem hfind
    rw [List.nodup_cons] at hnodup
    by_cases hii : id = i
    · subst hii
      have hrest : ∀ j ∈ rest, j ≠ id := by
        intro j hj he
        exact hnodup.1 (he ▸ hj)
      constructor
      · simp only [tickGo]
        rw [countId_append]
        rw [processTask_calls_eq env exec? now nowMinute st id task hfind]
        have hzero : countId (tickGo env exec? now nowMinute rest
            (processTask env exec? now nowMinute st id).1).2.1 id = 0 := by
          apply countId_eq_zero
          intro j hj
          exact hrest j (tickGo_calls_subset env exec? now nowMinute rest _ j hj)
        rw [hzero]
        by_cases hd : (dueAndEligible env nowMinute task && exec?.isSome) = true
        · rw [if_pos hd, if_pos hd]
          simp [countId]
        · rw [if_neg hd, if_neg hd]
          simp [countId]
      · simp only [tickGo]
        rw [tickGo_find?_of_not_mem env exec? now nowMinute rest _ id hrest]
        exact processTask_find?_self env exec? now nowMinute st id task hfind
    · have hmem' : i ∈ rest := by
        cases hmem with
        | head => exact absurd rfl hii
        | tail _ h => exact h
      have hfind1 : (processTask env exec? now nowMinute st id).1.tasks.find?
          (fun t => t.id == i) = some task := by
        rw [processTask_find?_ne env exec? now nowMinute st id i hii]
        exact hfind
      have hr := ih (processTask env exec? now nowMinute st id).1 i task hnodup.2 hmem' hfind1
      constructor
      · simp only [tickGo]
        rw [countId_append]
        have hzero : countId (processTask env exec? now nowMinute st id).2.1 i = 0 := by
          apply countId_eq_zero
          intro j hj
          rw [processTask_calls_subset env exec? now nowMinute st id j hj]
          exact hii
        rw [hzero, hr.1]
        omega
      · simp only [tickGo]
        exact hr.2

/-- `checkAndExecuteTasks` preserves the stored keys. -/
theorem check_map_id (env : Env) (exec? : Exec) (now : Nat) (st : ManagerState) :
    (checkAndExecuteTasks env exec? now st).1.tasks.map (fun t => t.id) =
      st.tasks.map (fun t => t.id) := by
  unfold checkAndExecuteTasks
  cases he : env.schedulingEnabled with
  | false => simp
  | true =>
    simp only [he, Bool.not_true]
    rw [if_neg (by simp)]
    exact tickGo_map_id env exec? now (truncMinute now) _ st

/-- The per-task characterization of one poll tick, when the feature is
enabled and the stored keys are duplicate-free. -/
theorem check_spec (env : Env) (exec? : Exec) (now : Nat) (st : ManagerState)
    (i : String) (task : ScheduledTask)
    (henv : env.schedulingEnabled = true)
    (hnodup : (st.tasks.map (fun t => t.id)).Nodup)
    (hfind : st.tasks.find? (fun t => t.id == i) = some task) :
    countId (checkAndExecuteTasks env exec? now st).2.1 i =
      (if dueAndEligible env (truncMinute now) task && exec?.isSome then 1 else 0) ∧
    (checkAndExecuteTasks env exec? now st).1.tasks.find? (fun t => t.id == i) =
      some (if dueAndEligible env (truncMinute now) task then fireTask env now task
        else task) := by
  have hmem : i ∈ st.tasks.map (fun t => t.id) := by
    rcases find?_id_spec hfind with ⟨h1, h2⟩
    exact h1 ▸ List.mem_map_of_mem (fun t => t.id) h2
  unfold checkAndExecuteTasks
  simp only [henv, Bool.not_true]
  rw [if_neg (by simp)]
  exact tickGo_spec env exec? now (truncMinute now) _ st i task hnodup hmem hfind

theorem fireTask_id (env : Env) (now : Nat) (t : ScheduledTask) :
    (fireTask env now t).id = t.id := rfl

/-! Concrete fixtures used by witnesses and counterexamples. -/

/-- UTC offset, global default scope, scheduling enabled, no open workspace. -/
def env0 : Env := ⟨0, TaskScope.globalScope, true, none⟩

/-- An enabled every-minute task armed for the minute at 60000 ms. -/
def task0 : ScheduledTask :=
  { id := "t1", name := "n", cronExpression := "* * * * *", prompt := "p",
    enabled := true, agent := none, model := none, scope := TaskScope.globalScope,
    workspacePath := none, promptSource := PromptSource.inline, promptPath := none,
    lastRun := none, nextRun := some 60000, createdAt := 0, updatedAt := 0 }

def st1 : ManagerState := ⟨[task0], [], 0⟩

def execOk : ScheduledTask → Except String Unit := fun _ => Except.ok ()

def execBoom : ScheduledTask → Except String Unit := fun _ => Except.error "boom"

def taskDisabled : ScheduledTask := { task0 with enabled := false, nextRun := none }

def stDisabled : ManagerState := ⟨[taskDisabled], [], 0⟩

def updEmptyCron : UpdateTaskInput := { cronExpression := some "" }

/-- Configuration default scope `"workspace"` (the shipped default), a
workspace open at `/ws`, and a `createTask` input that omits `scope`. -/
def envWsDefault : Env := ⟨0, TaskScope.workspace, true, some "/ws"⟩

def stEmpty : ManagerState := ⟨[], [], 0⟩

def inputNoScope : CreateTaskInput :=
  { name := "t", cronExpression := "* * * * *", prompt := "p" }

/-! The claims. -/

/-- Claim C7: serializing the task collection in the durable-store
record format and reloading it through `loadTasks` reproduces
equivalent tasks; a record missing `scope` gets `"global"`, one missing
`promptSource` gets `"inline"`, serialized timestamps come back as
dates, and `nextRun` is recomputed from the cron expression at load
time rather than taken from the stored value. -/
theorem c7_roundtrip_migration (env : Env) (now : Nat)
    (ts : List ScheduledTask) (r : RawTask) :
    loadTasks env now (ts.map serializeTask) =
      ts.map (fun t => { t with nextRun := getNextRun env t.cronExpression now }) ∧
    (loadRawTask env now r).scope = r.scope.getD TaskScope.globalScope ∧
    (loadRawTask env now r).promptSource = r.promptSource.getD PromptSource.inline ∧
    (loadRawTask env now r).createdAt = r.createdAt ∧
    (loadRawTask env now r).updatedAt = r.updatedAt ∧
    (loadRawTask env now r).lastRun = r.lastRun ∧
    (loadRawTask env now r).id = r.id ∧
    (loadRawTask env now r).nextRun = getNextRun env r.cronExpression now := by
  refine ⟨?_, rfl, rfl, rfl, rfl, rfl, rfl, rfl⟩
  unfold loadTasks
  rw [List.map_map]
  apply List.map_congr_left
  intro t _
  rfl

/-- Claim C8: scope gating returns true for every global task; for a
workspace task it returns true iff the current workspace identity is
defined and string-equal to the task's `workspacePath`; and a
scope-ineligible task is never dispatched by a poll tick. -/
theorem c8_scope_gating (env : Env) (task : ScheduledTask) :
    (task.scope = TaskScope.globalScope →
      shouldTaskRunInCurrentWorkspace env task = true) ∧
    (task.scope = TaskScope.workspace →
      (shouldTaskRunInCurrentWorkspace env task = true ↔
        env.currentWorkspace.isSome = true ∧
          task.workspacePath = env.currentWorkspace)) ∧
    (∀ (st : ManagerState) (exec? : Exec) (now : Nat) (i : String)
        (t : ScheduledTask),
      (st.tasks.map (fun u => u.id)).Nodup →
      st.tasks.find? (fun u => u.id == i) = some t →
      shouldTaskRunInCurrentWorkspace env t = false →
      countId (checkAndExecuteTasks env exec? now st).2.1 i = 0) := by
  refine ⟨?_, ?_, ?_⟩
  · intro h
    unfold shouldTaskRunInCurrentWorkspace
    rw [if_pos h]
  · intro h
    unfold shouldTaskRunInCurrentWorkspace
    rw [if_neg (by rw [h]; exact fun hc => TaskScope.noConfusion hc)]
    cases hc : env.currentWorkspace with
    | none => simp
    | some cw => simp [beq_iff_eq]
  · intro st exec? now i t hnodup hfind hscope
    cases henv : env.schedulingEnabled with
    | false =>
      unfold checkAndExecuteTasks
      rw [henv]
      simp [countId]
    | true =>
      rw [(check_spec env exec? now st i t henv hnodup hfind).1]
      simp [dueAndEligible, hscope]

/-- Claim C5 (code evidence): after `startScheduler` and then
`stopScheduler` before the alignment delay fires, the pending alignment
timeout is still live and its firing runs a poll tick and installs the
recurring interval, which then keeps ticking; `stopScheduler` when the
scheduler is not running is a no-op. This contradicts the claim that
after `stop()` no future poll tick ever occurs. -/
theorem c5_stop_misses_pending_alignment :
    (stopScheduler (startScheduler schedInitState)).pendingAlignment = true ∧
    (stopScheduler (startScheduler schedInitState)).intervalActive = false ∧
    (timerStep (stopScheduler (startScheduler schedInitState))
      TimerEvent.alignmentFires).2 = true ∧
    (timerStep (timerStep (stopScheduler (startScheduler schedInitState))
      TimerEvent.alignmentFires).1 TimerEvent.intervalTick).2 = true ∧
    stopScheduler schedInitState = schedInitState :=
  ⟨rfl, rfl, rfl, rfl, rfl⟩

/-- Claim C3 (code evidence): `createTask` with `scope` omitted under
the configuration default `"workspace"` and a workspace open at `/ws`
stores a task whose scope is `workspace` but whose `workspacePath` is
undefined, violating the claimed invariant: the source derives
`workspacePath` from `input.scope`, not from the resolved scope. -/
theorem c3_default_scope_breaks_invariant :
    ((createTask envWsDefault stEmpty inputNoScope 0 "task_0_a").1.toOption.map
      (fun t => (t.scope, t.workspacePath))) = some (TaskScope.workspace, none) ∧
    (createTask envWsDefault stEmpty inputNoScope 0 "task_0_a").2.tasks.map
      (fun t => (t.scope, t.workspacePath)) = [(TaskScope.workspace, none)] :=
  ⟨rfl, rfl⟩

/-- Claim C2 (code evidence): `validateCronExpression` does reject the
empty string, but `updateTask` given `cronExpression = ""` skips
validation (the guard is a JavaScript truthiness test and the empty
string is falsy), applies the empty expression, clears `nextRun`,
persists and notifies — the store is modified and no `InvalidExpression`
is raised. -/
theorem c2_update_empty_cron_bypasses_validation :
    validateCronExpression "" = Except.error SchedError.invalidExpression ∧
    (updateTask env0 st1 "t1" updEmptyCron 90000).1 =
      Except.ok (some { task0 with cronExpression := "", nextRun := none, updatedAt := 90000 }) ∧
    (updateTask env0 st1 "t1" updEmptyCron 90000).2.tasks =
      [{ task0 with cronExpression := "", nextRun := none, updatedAt := 90000 }] ∧
    (updateTask env0 st1 "t1" updEmptyCron 90000).2.notifications = 1 :=
  ⟨rfl, rfl, rfl, rfl⟩

/-- Claim C9 counterexample: a stored task and a bound Executor (so the
Executor is invoked), yet `runTaskNow` returns false because the
Executor throws — refuting "an Executor that was invoked yields
true". -/
theorem c9_counterexample :
    (st1.tasks.find? (fun t => t.id == "t1")).isSome = true ∧
    (some execBoom : Exec).isSome = true ∧
    (runTaskNow (some execBoom) st1 "t1" 5).1 = false :=
  ⟨rfl, rfl, rfl⟩

/-- Claim C9 as amended: `runTaskNow` invokes the Executor regardless of
`enabled`/`nextRun`/eligibility (no such condition appears); a missing
task or absent Executor binding yields false without throwing; when the
Executor succeeds only `lastRun` is updated (then persisted) and the
result is true; when the invoked Executor throws, the error is caught,
nothing is updated or persisted, and the result is false. -/
theorem c9_run_now_amended (exec? : Exec) (st : ManagerState) (i : String)
    (now : Nat) :
    (st.tasks.find? (fun t => t.id == i) = none →
      runTaskNow exec? st i now = (false, st)) ∧
    (exec? = none → runTaskNow exec? st i now = (false, st)) ∧
    (∀ (task : ScheduledTask) (f : ScheduledTask → Except String Unit),
      st.tasks.find? (fun t => t.id == i) = some task → exec? = some f →
      (f task = Except.ok () →
        runTaskNow exec? st i now =
          (true, saveTasks { st with
            tasks := setTask st.tasks { task with lastRun := some now } })) ∧
      (∀ e, f task = Except.error e → runTaskNow exec? st i now = (false, st))) := by
  refine ⟨?_, ?_, ?_⟩
  · intro h
    unfold runTaskNow
    rw [h]
  · intro h
    subst h
    unfold runTaskNow
    cases hf : st.tasks.find? (fun t => t.id == i) with
    | none => rfl
    | some task => rfl
  · intro task f hfind hexec
    subst hexec
    constructor
    · intro hok
      unfold runTaskNow
      rw [hfind]
      simp only [hok]
    · intro e herr
      unfold runTaskNow
      rw [hfind]
      simp only [herr]

theorem setTask_find?_self_of_id (tasks : List ScheduledTask) (t : ScheduledTask)
    (i : String) (hid : t.id = i)
    (h : tasks.any (fun u => u.id == i) = true) :
    (setTask tasks t).find? (fun u => u.id == i) = some t := by
  subst hid
  exact setTask_find?_self tasks t h

/-- Claim C6 counterexample: a stored task that is originally disabled
(with a valid cron expression). Toggling twice returns `enabled` to
false, but a `nextRun` IS present afterwards — the intermediate
enabling toggle recomputed it and the disabling toggle does not clear
it — refuting "a nextRun is present iff the final enabled state is true
and the expression is valid". -/
theorem c6_counterexample :
    ((toggleTask env0 (toggleTask env0 stDisabled "t1" 60000).2 "t1" 120000).1.map
      (fun t => (t.enabled, t.nextRun))) = some (false, some 120000) ∧
    taskDisabled.enabled = false ∧ taskDisabled.nextRun = none :=
  ⟨rfl, rfl, rfl⟩

/-- Claim C6 as amended: toggling twice returns the task to its
original `enabled` value, and afterwards `nextRun` equals the next
occurrence recomputed at whichever of the two calls enabled the task
(the second call when originally enabled, the first call when
originally disabled) — so it is present iff that recomputation
succeeds, regardless of the final enabled state. -/
theorem c6_toggle_twice_amended (env : Env) (st : ManagerState) (i : String)
    (task : ScheduledTask) (now₁ now₂ : Nat)
    (hfind : st.tasks.find? (fun t => t.id == i) = some task) :
    ((toggleTask env (toggleTask env st i now₁).2 i now₂).1.map
      (fun t => t.enabled)) = some task.enabled ∧
    ((toggleTask env (toggleTask env st i now₁).2 i now₂).1.map
      (fun t => t.nextRun)) =
      some (getNextRun env task.cronExpression
        (if task.enabled then now₂ else now₁)) := by
  have htid := (find?_id_spec hfind).1
  have hany0 := any_id_of_find? hfind
  cases he : task.enabled with
  | true =>
    have h1 : toggleTask env st i now₁ =
        (some { task with enabled := false, updatedAt := now₁ },
          saveTasks { st with tasks := setTask st.tasks { task with enabled := false, updatedAt := now₁ } }) := by
      unfold toggleTask
      rw [hfind]
      simp [he]
    have hfind1 : (saveTasks { st with tasks := setTask st.tasks { task with enabled := false, updatedAt := now₁ } }).tasks.find?
          (fun t => t.id == i) =
        some { task with enabled := false, updatedAt := now₁ } := by
      simp only [saveTasks]
      exact setTask_find?_self_of_id st.tasks _ i htid hany0
    rw [h1]
    unfold toggleTask
    rw [hfind1]
    simp [he]
  | false =>
    have h1 : toggleTask env st i now₁ =
        (some { task with enabled := true, updatedAt := now₁, nextRun := getNextRun env task.cronExpression now₁ },
          saveTasks { st with tasks := setTask st.tasks { task with enabled := true, updatedAt := now₁, nextRun := getNextRun env task.cronExpression now₁ } }) := by
      unfold toggleTask
      rw [hfind]
      simp [he]
    have hfind1 : (saveTasks { st with tasks := setTask st.tasks { task with enabled := true, updatedAt := now₁, nextRun := getNextRun env task.cronExpression now₁ } }).tasks.find?
          (fun t => t.id == i) =
        some { task with enabled := true, updatedAt := now₁, nextRun := getNextRun env task.cronExpression now₁ } := by
      simp only [saveTasks]
      exact setTask_find?_self_of_id st.tasks _ i htid hany0
    rw [h1]
    unfold toggleTask
    rw [hfind1]
    simp [he]

/-- Claim C6 witness: the amended statement at the concrete
originally-disabled fixture. -/
theorem c6_toggle_twice_witness :
    ((toggleTask env0 (toggleTask env0 stDisabled "t1" 60000).2 "t1" 120000).1.map
      (fun t => t.enabled)) = some taskDisabled.enabled ∧
    ((toggleTask env0 (toggleTask env0 stDisabled "t1" 60000).2 "t1" 120000).1.map
      (fun t => t.nextRun)) =
      some (getNextRun env0 taskDisabled.cronExpression
        (if taskDisabled.enabled then 120000 else 60000)) :=
  c6_toggle_twice_amended env0 stDisabled "t1" taskDisabled 60000 120000 rfl

/-- The task record `duplicateTask` is specified to produce for a
source task: a fresh id, fresh timestamps, forced disabled, no
`lastRun`, a freshly computed `nextRun`, and — when the source scope
is `workspace` — a `workspacePath` recaptured from the workspace
current at duplication time (the `workspacePath` guard is written on
the optional input scope exactly as `createTask` evaluates it). -/
def duplicateExpected (env : Env) (original : ScheduledTask) (now : Nat)
    (newId : String) : ScheduledTask :=
  { id := newId
    name := original.name ++ " (Copy)"
    cronExpression := original.cronExpression
    prompt := original.prompt
    enabled := false
    agent := original.agent
    model := original.model
    scope := original.scope
    workspacePath :=
      if some original.scope = some TaskScope.workspace then env.currentWorkspace else none
    promptSource := original.promptSource
    promptPath := original.promptPath
    lastRun := none
    nextRun := getNextRun env original.cronExpression now
    createdAt := now
    updatedAt := now }

/-- Claim C10: `duplicateTask` delegates to `createTask`, so the
duplicate carries the freshly generated id, `createdAt = updatedAt =
now`, no `lastRun`, a freshly computed `nextRun`, and its
`workspacePath` is recaptured from the current workspace (not copied
from the source); with a fresh id the duplicate is appended as a new
entry. -/
theorem c10_duplicate_delegates (env : Env) (st : ManagerState) (i : String)
    (now : Nat) (newId : String) (original : ScheduledTask)
    (hfind : st.tasks.find? (fun t => t.id == i) = some original)
    (hvalid : validateCronExpression original.cronExpression = Except.ok true)
    (hfresh : ∀ t ∈ st.tasks, t.id ≠ newId) :
    (duplicateTask env st i now newId).1 =
      Except.ok (some (duplicateExpected env original now newId)) ∧
    (duplicateTask env st i now newId).2.tasks =
      st.tasks ++ [duplicateExpected env original now newId] ∧
    (duplicateExpected env original now newId).workspacePath =
      (if original.scope = TaskScope.workspace then env.currentWorkspace else none) ∧
    (duplicateExpected env original now newId).lastRun = none := by
  have hany : st.tasks.any (fun u => u.id == newId) = false := by
    rw [Bool.eq_false_iff]
    intro hc
    rw [List.any_eq_true] at hc
    rcases hc with ⟨t, ht, hp⟩
    exact hfresh t ht (by simpa using hp)
  have hset : setTask st.tasks (duplicateExpected env original now newId) =
      st.tasks ++ [duplicateExpected env original now newId] := by
    unfold setTask
    rw [if_neg (by rw [show (duplicateExpected env original now newId).id = newId from rfl, hany]; simp)]
  have hcreate : createTask env st
      { name := original.name ++ " (Copy)"
        cronExpression := original.cronExpression
        prompt := original.prompt
        enabled := some false
        agent := original.agent
        model := original.model
        scope := some original.scope
        promptSource := some original.promptSource
        promptPath := original.promptPath } now newId =
      (Except.ok (duplicateExpected env original now newId),
        saveTasks { st with tasks := setTask st.tasks (duplicateExpected env original now newId) }) := by
    unfold createTask
    rw [hvalid]
    rfl
  unfold duplicateTask
  simp only [hfind]
  rw [hcreate]
  refine ⟨rfl, ?_, ?_, rfl⟩
  · show (saveTasks { st with tasks := setTask st.tasks (duplicateExpected env original now newId) }).tasks =
      st.tasks ++ [duplicateExpected env original now newId]
    simp only [saveTasks]
    exact hset
  · simp [duplicateExpected]

/-- Claim C10 witness: duplicating the concrete every-minute task with
a fresh id. -/
theorem c10_duplicate_witness :
    (duplicateTask env0 st1 "t1" 0 "task_9_z").1 =
      Except.ok (some (duplicateExpected env0 task0 0 "task_9_z")) :=
  (c10_duplicate_delegates env0 st1 "t1" 0 "task_9_z" task0 rfl rfl
    (by decide)).1

/-- One loop iteration's state and dispatch sequence do not depend on
what the executor callback returns or throws (only on whether one is
bound): the `catch` swallows the error before the bookkeeping. -/
theorem processTask_exec_indep (env : Env) (e₁ e₂ : Exec)
    (h : e₁.isSome = e₂.isSome) (now nowMinute : Nat) (st : ManagerState)
    (id : String) :
    (processTask env e₁ now nowMinute st id).1 =
      (processTask env e₂ now nowMinute st id).1 ∧
    (processTask env e₁ now nowMinute st id).2.1 =
      (processTask env e₂ now nowMinute st id).2.1 := by
  cases hf : st.tasks.find? (fun t => t.id == id) with
  | none =>
    unfold processTask
    rw [hf]
    exact ⟨rfl, rfl⟩
  | some task =>
    rw [processTask_eq env e₁ now nowMinute st id task hf,
      processTask_eq env e₂ now nowMinute st id task hf]
    by_cases hd : dueAndEligible env nowMinute task
    · rw [if_pos hd, if_pos hd]
      refine ⟨rfl, ?_⟩
      rw [runCallback_calls, runCallback_calls, h]
    · rw [if_neg hd, if_neg hd]
      exact ⟨rfl, rfl⟩

theorem tickGo_exec_indep (env : Env) (e₁ e₂ : Exec)
    (h : e₁.isSome = e₂.isSome) (now nowMinute : Nat) :
    ∀ (ids : List String) (st : ManagerState),
      (tickGo env e₁ now nowMinute ids st).1 =
        (tickGo env e₂ now nowMinute ids st).1 ∧
      (tickGo env e₁ now nowMinute ids st).2.1 =
        (tickGo env e₂ now nowMinute ids st).2.1 := by
  intro ids
  induction ids with
  | nil => intro st; exact ⟨rfl, rfl⟩
  | cons id rest ih =>
    intro st
    simp only [tickGo]
    have hp := processTask_exec_indep env e₁ e₂ h now nowMinute st id
    constructor
    · rw [hp.1]
      exact (ih _).1
    · rw [hp.2, hp.1, (ih _).2]

theorem check_exec_indep (env : Env) (e₁ e₂ : Exec)
    (h : e₁.isSome = e₂.isSome) (now : Nat) (st : ManagerState) :
    (checkAndExecuteTasks env e₁ now st).1 = (checkAndExecuteTasks env e₂ now st).1 ∧
    (checkAndExecuteTasks env e₁ now st).2.1 =
      (checkAndExecuteTasks env e₂ now st).2.1 := by
  unfold checkAndExecuteTasks
  cases he : env.schedulingEnabled with
  | false => simp
  | true =>
    simp only [Bool.not_true]
    rw [if_neg (by simp)]
    exact tickGo_exec_indep env e₁ e₂ h now (truncMinute now) _ st

/-- Claim C4: in a tick where tasks A and B are both due and the
Executor throws for A, B still receives its execute call (exactly
once, as does A), the resulting manager state — A's `lastRun`/`nextRun`
update and every persisted snapshot included — is exactly the state a
succeeding Executor would have produced, and the dispatch sequence is
the same; the thrown error is caught inside the tick. -/
theorem c4_executor_failure_resilience (env : Env) (A B : ScheduledTask)
    (st : ManagerState) (f g : ScheduledTask → Except String Unit)
    (eA : String) (now : Nat) (nrA nrB : Nat)
    (htasks : st.tasks = [A, B])
    (hids : A.id ≠ B.id)
    (henv : env.schedulingEnabled = true)
    (hfA : f A = Except.error eA)
    (hgA : g A = Except.ok ())
    (hAe : A.enabled = true) (hAn : A.nextRun = some nrA)
    (hAs : shouldTaskRunInCurrentWorkspace env A = true)
    (hAd : truncMinute nrA ≤ truncMinute now)
    (hBe : B.enabled = true) (hBn : B.nextRun = some nrB)
    (hBs : shouldTaskRunInCurrentWorkspace env B = true)
    (hBd : truncMinute nrB ≤ truncMinute now) :
    countId (checkAndExecuteTasks env (some f) now st).2.1 B.id = 1 ∧
    countId (checkAndExecuteTasks env (some f) now st).2.1 A.id = 1 ∧
    (checkAndExecuteTasks env (some f) now st).1 =
      (checkAndExecuteTasks env (some g) now st).1 ∧
    (checkAndExecuteTasks env (some f) now st).2.1 =
      (checkAndExecuteTasks env (some g) now st).2.1 ∧
    (checkAndExecuteTasks env (some f) now st).1.tasks.find?
      (fun t => t.id == A.id) = some (fireTask env now A) := by
  have hnodup : (st.tasks.map (fun t => t.id)).Nodup := by
    rw [htasks]
    simp [hids]
  have hfindA : st.tasks.find? (fun t => t.id == A.id) = some A := by
    rw [htasks, List.find?_cons_of_pos _ (by simp)]
  have hfindB : st.tasks.find? (fun t => t.id == B.id) = some B := by
    rw [htasks, List.find?_cons_of_neg _ (by simp [hids]),
      List.find?_cons_of_pos _ (by simp)]
  have hdA : dueAndEligible env (truncMinute now) A = true := by
    simp [dueAndEligible, hAe, hAn, hAs, hAd]
  have hdB : dueAndEligible env (truncMinute now) B = true := by
    simp [dueAndEligible, hBe, hBn, hBs, hBd]
  have hsA := check_spec env (some f) now st A.id A henv hnodup hfindA
  have hsB := check_spec env (some f) now st B.id B henv hnodup hfindB
  refine ⟨?_, ?_, ?_, ?_, ?_⟩
  · rw [hsB.1]
    simp [hdB]
  · rw [hsA.1]
    simp [hdA]
  · exact (check_exec_indep env (some f) (some g) rfl now st).1
  · exact (check_exec_indep env (some f) (some g) rfl now st).2
  · rw [hsA.2, if_pos hdA]

/-- Claim C1: with the feature enabled and an Executor bound, a poll
tick dispatches an enabled, armed, scope-eligible task exactly once iff
its `nextRun` truncated to the minute is at or before "now" truncated
to the minute; a dispatched task gets `lastRun = now` and `nextRun` set
to the next occurrence strictly after `now` (also strictly after at
minute granularity), so an immediately following tick in the same
minute does not dispatch it again; disabled or unarmed tasks are never
dispatched. -/
theorem c1_due_selection_and_advance (env : Env)
    (f : ScheduledTask → Except String Unit) (st : ManagerState) (now : Nat)
    (i : String) (task : ScheduledTask) (nr : Nat)
    (henv : env.schedulingEnabled = true)
    (hnodup : (st.tasks.map (fun t => t.id)).Nodup)
    (hfind : st.tasks.find? (fun t => t.id == i) = some task)
    (hen : task.enabled = true)
    (hnr : task.nextRun = some nr)
    (hscope : shouldTaskRunInCurrentWorkspace env task = true) :
    countId (checkAndExecuteTasks env (some f) now st).2.1 i =
      (if truncMinute nr ≤ truncMinute now then 1 else 0) ∧
    (truncMinute nr ≤ truncMinute now →
      (checkAndExecuteTasks env (some f) now st).1.tasks.find? (fun t => t.id == i) =
        some { task with lastRun := some now, nextRun := getNextRun env task.cronExpression now } ∧
      (∀ t', getNextRun env task.cronExpression now = some t' →
        now < t' ∧ truncMinute now < truncMinute t') ∧
      (∀ (exec₂ : Exec) (now₂ : Nat), truncMinute now₂ = truncMinute now →
        countId (checkAndExecuteTasks env exec₂ now₂
          (checkAndExecuteTasks env (some f) now st).1).2.1 i = 0)) ∧
    (∀ (j : String) (t₂ : ScheduledTask),
      st.tasks.find? (fun u => u.id == j) = some t₂ →
      (t₂.enabled = false ∨ t₂.nextRun = none) →
      countId (checkAndExecuteTasks env (some f) now st).2.1 j = 0) := by
  have hs := check_spec env (some f) now st i task henv hnodup hfind
  have hdE : dueAndEligible env (truncMinute now) task =
      decide (truncMinute nr ≤ truncMinute now) := by
    simp [dueAndEligible, hen, hnr, hscope]
  refine ⟨?_, ?_, ?_⟩
  · rw [hs.1, hdE]
    by_cases hd : truncMinute nr ≤ truncMinute now
    · simp [hd]
    · simp [hd]
  · intro hdue
    have hdE' : dueAndEligible env (truncMinute now) task = true := by
      rw [hdE]
      simpa using hdue
    have hfired : (checkAndExecuteTasks env (some f) now st).1.tasks.find?
        (fun t => t.id == i) = some (fireTask env now task) := by
      rw [hs.2, if_pos hdE']
    refine ⟨hfired, ?_, ?_⟩
    · intro t' ht'
      have hspec := getNextRun_spec env task.cronExpression now t' ht'
      exact ⟨hspec.2.1, hspec.2.2⟩
    · intro exec₂ now₂ hnow₂
      have hnodup' : ((checkAndExecuteTasks env (some f) now st).1.tasks.map
          (fun t => t.id)).Nodup := by
        rw [check_map_id]
        exact hnodup
      have hs2 := check_spec env exec₂ now₂ _ i (fireTask env now task)
        henv hnodup' hfired
      rw [hs2.1]
      have hnd : dueAndEligible env (truncMinute now₂) (fireTask env now task) = false := by
        unfold dueAndEligible fireTask
        cases hg : getNextRun env task.cronExpression now with
        | none => simp [hg]
        | some t' =>
          have hspec := getNextRun_spec env task.cronExpression now t' hg
          simp only [hg]
          simp [hnow₂]
          intro h1 h2
          exact hspec.2.2
      rw [hnd]
      simp
  · intro j t₂ hfj hdis
    have hsj := check_spec env (some f) now st j t₂ henv hnodup hfj
    rw [hsj.1]
    rcases hdis with hd | hd
    · simp [dueAndEligible, hd]
    · simp [dueAndEligible, hd]

/-- Claim C1 witness: the every-minute task armed for the minute at
60000 ms is dispatched exactly once by the tick at 60000 ms. -/
theorem c1_due_selection_witness :
    countId (checkAndExecuteTasks env0 (some execOk) 60000 st1).2.1 "t1" =
      (if truncMinute 60000 ≤ truncMinute 60000 then 1 else 0) :=
  (c1_due_selection_and_advance env0 execOk st1 60000 "t1" task0 60000 rfl
    (by decide) rfl rfl rfl rfl).1

/-- A second due task under a different key. -/
def taskB2 : ScheduledTask := { task0 with id := "t2" }

def st4 : ManagerState := ⟨[task0, taskB2], [], 0⟩

/-- An executor that throws for task `t1` and succeeds elsewhere. -/
def execFailT1 : ScheduledTask → Except String Unit :=
  fun t => if t.id == "t1" then Except.error "boom" else Except.ok ()

/-- Claim C4 witness: with the executor throwing for `t1`, the also-due
task `t2` still gets its execute call in the same tick. -/
theorem c4_executor_failure_witness :
    countId (checkAndExecuteTasks env0 (some execFailT1) 60000 st4).2.1 taskB2.id = 1 :=
  (c4_executor_failure_resilience env0 task0 taskB2 st4 execFailT1 execOk "boom"
    60000 60000 60000 rfl (by decide) rfl rfl rfl rfl rfl rfl (by decide)
    rfl rfl rfl (by decide)).1
